import Mathlib

/-!
# Shallow embedding of the alephXtf ink! contracts

This file embeds the two contracts that the verified claims are about:

* `EtfEscrow` (src/contracts/etf/lib.rs): a vault pool that locks a fixed
  basket of remote tokens per vault and mints `SHARES = 100` pool shares,
  with an Erc20-style `transfer` / `transfer_from` on the share table.
* `Escrow` (src/contracts/escrow/lib.rs): a single-admin multi-token escrow
  with `deposit` / `withdraw` and a local per-token balance table.

Embedding conventions:

* ink `AccountId` and ink `Balance` (`u128`) are both `Nat`.  Vault ids and the vault
  counter are `u8` values, kept as `Nat` with their 256 bound made explicit
  where the code's arithmetic touches it.
* ink's storage `Mapping` is a total function to `Option`, with `get`,
  `insert`, `remove`, `contains` mirroring the ink API (`get _ |>.getD 0`
  embeds `unwrap_or(0)` / `unwrap_or_default()`).
* Each `#[ink(message)]` body is translated statement by statement into a
  function returning `MsgResult`: `.ok st v` for `Ok(v)` with post-state
  `st`, `.err st e` for an early `return Err(e)` (with the storage as the
  body left it), and `.trap` for an irrecoverable fault (an `unwrap` on a
  missing key, an out-of-bounds index, or checked-arithmetic overflow).
  The wrapper `runMsg` applies ink!'s (>= 4.0) message semantics on top of
  the raw body: a message that returns `Err` has all of its storage writes
  reverted, and a trap aborts the whole invocation.
* Integer overflow/underflow semantics: the contracts are built with
  overflow checks (the build profile is not under src/; Spec §3 states
  that a subtraction that would go negative is "a contract violation, not
  a wrapping result"), so `a + b` on `u128`/`u8` traps when it leaves the
  width and an unguarded `a - b` traps when `b > a`.  Guarded subtractions
  are plain `Nat` subtraction (the guard makes them exact).
* Outbound cross-contract calls (`build_call ... .invoke()`) go to other
  contracts and cannot touch this contract's storage (reentrancy, which the
  spec lists as an unmitigated risk, is outside the claims); the embedding
  records each issued call as a `RemoteCall` value (callee, 4-byte selector,
  argument list in push order) and assumes the remote does not trap.
* The 4-byte selector is the truncated blake2b-256 of the entry-point name;
  blake2b comes from an external crate, so the hash is a parameter
  `hash : HashFn` of every definition that computes a selector.
-/

/-- ink `AccountId` (an opaque address, equality only) and ink `Balance`
(`u128`) are both embedded as `Nat`; `AccountId`/`Balance` below are
documentation aliases only. -/
abbrev AccountId := Nat

/-- See `AccountId`. -/
abbrev Balance := Nat

/-- `2 ^ 128`, the first value outside `u128`. -/
def U128 : Nat := 2 ^ 128

/-- ink storage `Mapping<K, V>`: a key-value store, absent keys read as
`none`. -/
structure Mapping (K V : Type) where
  get : K → Option V

/-- `Mapping::insert` (overwrites any previous value at the key). -/
def Mapping.insert {K V : Type} [DecidableEq K] (m : Mapping K V) (k : K) (v : V) :
    Mapping K V :=
  ⟨fun k' => if k' = k then some v else m.get k'⟩

/-- `Mapping::remove`. -/
def Mapping.remove {K V : Type} [DecidableEq K] (m : Mapping K V) (k : K) :
    Mapping K V :=
  ⟨fun k' => if k' = k then none else m.get k'⟩

/-- `Mapping::contains`. -/
def Mapping.contains {K V : Type} (m : Mapping K V) (k : K) : Bool :=
  (m.get k).isSome

/-- `Mapping::new()`: the empty store. -/
def Mapping.empty {K V : Type} : Mapping K V := ⟨fun _ => none⟩

/-- One outbound cross-contract call as built by
`build_call::<DefaultEnvironment>() ... .invoke()`: the callee account, the
4-byte selector, and the `push_arg`ed arguments in order (accounts and
balances, all encoded as `Nat`). -/
structure RemoteCall where
  callee : Nat
  selector : List Nat
  args : List Nat
  deriving DecidableEq, Repr

/-- Result of running one `#[ink(message)]` body: `ok`/`err` carry the
storage state the body left behind; `trap` is an irrecoverable abort
(`unwrap` on a missing key, index out of bounds, checked arithmetic). -/
inductive MsgResult (σ ε α : Type) where
  | ok (st : σ) (val : α)
  | err (st : σ) (e : ε)
  | trap
  deriving Repr

/-- ink! message semantics (ink >= 4.0) on top of a raw body run from
state `s₀`: returning `Err` reverts every storage write of the message, so
the caller observes the original state; `ok` commits; a trap aborts the
whole invocation. -/
def runMsg {σ ε α : Type} (s₀ : σ) : MsgResult σ ε α → MsgResult σ ε α
  | .ok st v => .ok st v
  | .err _ e => .err s₀ e
  | .trap => .trap

/-- `MsgResult.stateD d`: the carried state, or `d` for a trap. -/
def MsgResult.stateD {σ ε α : Type} (d : σ) : MsgResult σ ε α → σ
  | .ok st _ => st
  | .err st _ => st
  | .trap => d

/-- Whether the message returned `Ok`. -/
def MsgResult.isOk {σ ε α : Type} : MsgResult σ ε α → Bool
  | .ok _ _ => true
  | _ => false

/-- External blake2b-256 digest (from the `blake2_rfc` crate, not part of
this repository): a function from the entry-point name to its digest
bytes. -/
abbrev HashFn := String → List Nat

/-- `calculate_selector` (identical private helper in both contracts):
first 4 bytes of the blake2b-256 digest of the function name. -/
def calculate_selector (hash : HashFn) (function_name : String) : List Nat :=
  (hash function_name).take 4

/-- A fixed stand-in digest function used to instantiate witnesses (the
claims never depend on concrete digest bytes). -/
def hash0 : HashFn := fun _ => [0, 0, 0, 0]

/-! ## `EtfEscrow` (src/contracts/etf/lib.rs) -/

/-- `ContractError` of the ETF contract. -/
inductive ContractError where
  | insufficientBalance
  | unsupportedToken
  | transferFailed
  | closeVaultFailed
  | vaultAlreadyExists
  deriving DecidableEq, Repr

/-- `const SHARES: Balance = 100`: pool shares minted per vault. -/
def SHARES : Nat := 100

/-- `#[ink(storage)] struct EtfEscrow`.  `vaults_quantity` is the `u8`
vault counter; `vaults` maps a `u8` vault id to its registered owner;
`balances` is the single table holding both per-token escrow balances
(keyed by token account) and per-holder pool-share balances (keyed by
holder account). -/
structure EtfEscrow where
  vaults_quantity : Nat
  required_tokens : List Nat
  required_balances : List Nat
  vaults : Mapping Nat Nat
  vaults_quantity_per_owner : Mapping Nat Nat
  balances : Mapping Nat Nat
  total_supply : Nat

/-- `EtfEscrow::new`. -/
def EtfEscrow.new (required_tokens : List Nat)
    (required_balances : List Nat) : EtfEscrow where
  required_tokens := required_tokens
  required_balances := required_balances
  vaults_quantity := 0
  vaults_quantity_per_owner := Mapping.empty
  balances := Mapping.empty
  vaults := Mapping.empty
  total_supply := 0

/-- `Erc20::balance_of` for the pool: `self.balances.get(&owner).unwrap_or(0)`. -/
def EtfEscrow.balance_of (s : EtfEscrow) (owner : Nat) : Nat :=
  (s.balances.get owner).getD 0

/-- `EtfEscrow::get_balance` (same body as `balance_of`). -/
def EtfEscrow.get_balance (s : EtfEscrow) (owner : Nat) : Nat :=
  (s.balances.get owner).getD 0

/-- `EtfEscrow::get_vault_owner`: `self.vaults.get(&vault).unwrap()` — the
`unwrap` of a missing key is a trap, embedded as `none`. -/
def EtfEscrow.get_vault_owner (s : EtfEscrow) (vault : Nat) : Option Nat :=
  s.vaults.get vault

/-- `EtfEscrow::get_vaults_quantity_per_owner`. -/
def EtfEscrow.get_vaults_quantity_per_owner (s : EtfEscrow) (owner : Nat) : Nat :=
  (s.vaults_quantity_per_owner.get owner).getD 0

/-- `Erc20::transfer` for the pool (the caller is the source).  Note the
source order: `from_balance` and `to_balance` are both read before either
insert, and the `to` insert happens last — for `to = from` the second
insert overwrites the first with the stale `to_balance + value`. -/
def EtfEscrow.transfer (s : EtfEscrow) (caller dest : Nat) (value : Nat) :
    MsgResult EtfEscrow ContractError Nat :=
  let from_balance := s.balance_of caller
  if from_balance < value then .err s .insufficientBalance
  else
    let to_balance := s.balance_of dest
    if to_balance + value < U128 then
      let s1 : EtfEscrow :=
        { s with balances := s.balances.insert caller (from_balance - value) }
      let s2 : EtfEscrow :=
        { s1 with balances := s1.balances.insert dest (to_balance + value) }
      .ok s2 (s2.balance_of caller)
    else .trap

/-- `Erc20::transfer_from` for the pool: same body as `transfer` but the
debited account is the `from` argument; the caller is read and then never
checked against any allowance (`// TO-DO` in the source). -/
def EtfEscrow.transfer_from (s : EtfEscrow) (caller src dest : Nat)
    (value : Nat) : MsgResult EtfEscrow ContractError Nat :=
  let _ := caller
  let from_balance := s.balance_of src
  if from_balance < value then .err s .insufficientBalance
  else
    let to_balance := s.balance_of dest
    if to_balance + value < U128 then
      let s1 : EtfEscrow :=
        { s with balances := s.balances.insert src (from_balance - value) }
      let s2 : EtfEscrow :=
        { s1 with balances := s1.balances.insert dest (to_balance + value) }
      .ok s2 (s2.balance_of src)
    else .trap

/-- The `transfer` message (raw body under ink! revert-on-`Err`). -/
def EtfEscrow.transfer_msg (s : EtfEscrow) (caller dest : Nat)
    (value : Nat) : MsgResult EtfEscrow ContractError Nat :=
  runMsg s (s.transfer caller dest value)

/-- The `transfer_from` message (raw body under ink! revert-on-`Err`). -/
def EtfEscrow.transfer_from_msg (s : EtfEscrow) (caller src dest : Nat)
    (value : Nat) : MsgResult EtfEscrow ContractError Nat :=
  runMsg s (s.transfer_from caller src dest value)

/-- The basket loop of `EtfEscrow::open_vault` (src lines 126-150).  It
walks `required_tokens` with the parallel index into `required_balances`
(exhausting `required_balances` first is an out-of-bounds index, a trap).
Per iteration, in source order: read the escrow's own recorded balance of
the token; return `Err(InsufficientNat)` if it is below the required
amount; issue `transfer_from` to the token with pushed arguments
`(caller, self.env().account_id(), balance)` — note the third argument is
`balance`, the just-read recorded balance, not the required amount; then
re-read the recorded balance and insert it increased by the required
amount (checked `u128` addition). -/
def EtfEscrow.open_vault_loop (hash : HashFn) (self_account caller : Nat) :
    List Nat → List Nat → Mapping Nat Nat → List RemoteCall →
    MsgResult (Mapping Nat Nat) ContractError (List RemoteCall)
  | [], _, b, calls => .ok b calls
  | _ :: _, [], _, _ => .trap
  | token :: tokens, req :: reqs, b, calls =>
    let balance := (b.get token).getD 0
    if balance < req then .err b .insufficientBalance
    else
      let call : RemoteCall :=
        ⟨token, calculate_selector hash "transfer_from", [caller, self_account, balance]⟩
      let escrow_balance := (b.get token).getD 0
      if escrow_balance + req < U128 then
        EtfEscrow.open_vault_loop hash self_account caller tokens reqs
          (b.insert token (escrow_balance + req)) (calls ++ [call])
      else .trap

/-- Raw body of `EtfEscrow::open_vault` (src lines 119-165).  Returns
`Err(VaultAlreadyExists)` if the caller-supplied `vault` argument is
already registered; runs the basket loop; then registers a fresh vault
under the *counter* value (shadowing the argument), increments the `u8`
counter and the owner's `u8` vault count (both checked), and credits the
caller with `SHARES` (checked `u128`).  The returned value is the assigned
vault id together with the outbound calls issued. -/
def EtfEscrow.open_vault (hash : HashFn) (s : EtfEscrow)
    (self_account caller owner : Nat) (vault : Nat) :
    MsgResult EtfEscrow ContractError (Nat × List RemoteCall) :=
  if s.vaults.contains vault then .err s .vaultAlreadyExists
  else
    match EtfEscrow.open_vault_loop hash self_account caller
        s.required_tokens s.required_balances s.balances [] with
    | .trap => .trap
    | .err b e => .err { s with balances := b } e
    | .ok b calls =>
      let vault := s.vaults_quantity
      let vaults := s.vaults.insert vault owner
      if s.vaults_quantity + 1 < 256 then
        let vaults_quantity_of_owner := (s.vaults_quantity_per_owner.get owner).getD 0
        if vaults_quantity_of_owner + 1 < 256 then
          let caller_balance := (b.get caller).getD 0
          if caller_balance + SHARES < U128 then
            .ok { s with
                  vaults := vaults
                  vaults_quantity := s.vaults_quantity + 1
                  vaults_quantity_per_owner :=
                    s.vaults_quantity_per_owner.insert owner (vaults_quantity_of_owner + 1)
                  balances := b.insert caller (caller_balance + SHARES) }
              (vault, calls)
          else .trap
        else .trap
      else .trap

/-- The `open_vault` message: raw body under ink! revert-on-`Err`. -/
def EtfEscrow.open_vault_msg (hash : HashFn) (s : EtfEscrow)
    (self_account caller owner : Nat) (vault : Nat) :
    MsgResult EtfEscrow ContractError (Nat × List RemoteCall) :=
  runMsg s (s.open_vault hash self_account caller owner vault)

/-- The redemption loop of `EtfEscrow::close_vault` (src lines 180-200).
Per iteration, in source order: read the recorded balance (bound but
unused in the source); issue `transfer_from` to the token with pushed
arguments `(self.env().account_id(), caller, required_balances[i])`; then
re-read the recorded balance and insert it decreased by the required
amount — an unguarded `u128` subtraction, which traps when the balance is
below the required amount. -/
def EtfEscrow.close_vault_loop (hash : HashFn) (self_account caller : Nat) :
    List Nat → List Nat → Mapping Nat Nat → List RemoteCall →
    MsgResult (Mapping Nat Nat) ContractError (List RemoteCall)
  | [], _, b, calls => .ok b calls
  | _ :: _, [], _, _ => .trap
  | token :: tokens, req :: reqs, b, calls =>
    let _balance := (b.get token).getD 0
    let call : RemoteCall :=
      ⟨token, calculate_selector hash "transfer_from", [self_account, caller, req]⟩
    let escrow_balance := (b.get token).getD 0
    if req ≤ escrow_balance then
      EtfEscrow.close_vault_loop hash self_account caller tokens reqs
        (b.insert token (escrow_balance - req)) (calls ++ [call])
    else .trap

/-- Continuation of `close_vault` after the internal self-transfer: the
redemption loop and the registry/per-owner updates. -/
def EtfEscrow.close_vault_rest (hash : HashFn) (s : EtfEscrow)
    (self_account caller : Nat) (vault : Nat) (owner : Nat) :
    MsgResult EtfEscrow ContractError (List RemoteCall) :=
  match EtfEscrow.close_vault_loop hash self_account caller
      s.required_tokens s.required_balances s.balances [] with
  | .trap => .trap
  | .err b e => .err { s with balances := b } e
  | .ok b calls =>
    let vaults := s.vaults.remove vault
    let vaults_quantity_of_owner := (s.vaults_quantity_per_owner.get owner).getD 0
    if vaults_quantity_of_owner = 0 then .trap
    else
      .ok { s with
            vaults := vaults
            vaults_quantity_per_owner :=
              s.vaults_quantity_per_owner.insert owner (vaults_quantity_of_owner - 1)
            balances := b }
        calls

/-- Raw body of `EtfEscrow::close_vault` (src lines 168-208).
`self.vaults.get(&vault).unwrap()` traps when the vault id is not
registered.  Returns `Err(InsufficientNat)` when the caller holds
fewer than `SHARES` shares.  Then performs the internal self-transfer
`self.transfer(caller, SHARES)` (its `Result` is discarded in the source;
on `Err` the storage is simply left as `transfer` left it), runs the
redemption loop, removes the vault, and decrements the registered owner's
`u8` vault count (unguarded `u8` subtraction: traps at 0). -/
def EtfEscrow.close_vault (hash : HashFn) (s : EtfEscrow)
    (self_account caller : Nat) (vault : Nat) :
    MsgResult EtfEscrow ContractError (List RemoteCall) :=
  match s.vaults.get vault with
  | none => .trap
  | some owner =>
    let caller_shares_balance := (s.balances.get caller).getD 0
    if caller_shares_balance < SHARES then .err s .insufficientBalance
    else
      match s.transfer caller caller SHARES with
      | .trap => .trap
      | .err s1 _ => EtfEscrow.close_vault_rest hash s1 self_account caller vault owner
      | .ok s1 _ => EtfEscrow.close_vault_rest hash s1 self_account caller vault owner

/-- The `close_vault` message: raw body under ink! revert-on-`Err`. -/
def EtfEscrow.close_vault_msg (hash : HashFn) (s : EtfEscrow)
    (self_account caller : Nat) (vault : Nat) :
    MsgResult EtfEscrow ContractError (List RemoteCall) :=
  runMsg s (s.close_vault hash self_account caller vault)

/-! ## `Escrow` (src/contracts/escrow/lib.rs) -/

/-- `EscrowError` of the escrow contract. -/
inductive EscrowError where
  | insufficientBalance
  | unsupportedToken
  | transferFailed
  deriving DecidableEq, Repr

/-- `#[ink(storage)] struct Escrow`: the whitelist of supported tokens,
the per-token balance table, and the admin account. -/
structure Escrow where
  tokens : List Nat
  balances : Mapping Nat Nat
  admin : Nat

/-- `Escrow::new`: whitelist from the constructor argument, empty
balances, admin = deployer (the constructor's caller). -/
def Escrow.new (supported_tokens : List Nat) (deployer : Nat) : Escrow where
  tokens := supported_tokens
  balances := Mapping.empty
  admin := deployer

/-- `Escrow::get_balance`: `self.balances.get(&token).unwrap_or_default()`. -/
def Escrow.get_balance (s : Escrow) (token : Nat) : Nat :=
  (s.balances.get token).getD 0

/-- `Escrow::get_admin`. -/
def Escrow.get_admin (s : Escrow) : Nat := s.admin

/-- `Escrow::get_tokens`. -/
def Escrow.get_tokens (s : Escrow) : List Nat := s.tokens

/-- Raw body of `Escrow::deposit` (src lines 94-125).  In source order:
`Err(UnsupportedToken)` if the token is not whitelisted; build the
selector for `"transfer"` and issue the outbound call to `token` with
pushed arguments `(caller, amount)` — i.e. remote `transfer(to, value)`
with `to = caller`; emit the Deposit event; then unconditionally insert
the local balance increased by `amount` (checked `u128` addition). -/
def Escrow.deposit (hash : HashFn) (s : Escrow) (caller token : Nat)
    (amount : Nat) : MsgResult Escrow EscrowError (List RemoteCall) :=
  if token ∈ s.tokens then
    let call : RemoteCall := ⟨token, calculate_selector hash "transfer", [caller, amount]⟩
    let balance := s.get_balance token
    if balance + amount < U128 then
      .ok { s with balances := s.balances.insert token (balance + amount) } [call]
    else .trap
  else .err s .unsupportedToken

/-- Raw body of `Escrow::withdraw` (src lines 128-165).  In source order:
`Err(TransferFailed)` if the caller is not the admin;
`Err(UnsupportedToken)` if the token is not whitelisted;
`Err(InsufficientNat)` if the local balance is below `amount`;
otherwise issue the outbound `"transfer"` call to `token` with pushed
arguments `(caller, amount)` and insert the local balance decreased by
`amount` (the subtraction is guarded by the balance check). -/
def Escrow.withdraw (hash : HashFn) (s : Escrow) (caller token : Nat)
    (amount : Nat) : MsgResult Escrow EscrowError (List RemoteCall) :=
  if caller ≠ s.admin then .err s .transferFailed
  else if token ∉ s.tokens then .err s .unsupportedToken
  else
    let balance := s.get_balance token
    if balance < amount then .err s .insufficientBalance
    else
      let call : RemoteCall := ⟨token, calculate_selector hash "transfer", [caller, amount]⟩
      .ok { s with balances := s.balances.insert token (balance - amount) } [call]

/-- `Escrow::set_admin`: silently no-ops unless the caller is the current
admin. -/
def Escrow.set_admin (s : Escrow) (caller new_admin : Nat) : Escrow :=
  if caller = s.admin then { s with admin := new_admin } else s

/-- The `deposit` message: raw body under ink! revert-on-`Err`. -/
def Escrow.deposit_msg (hash : HashFn) (s : Escrow) (caller token : Nat)
    (amount : Nat) : MsgResult Escrow EscrowError (List RemoteCall) :=
  runMsg s (s.deposit hash caller token amount)

/-- The `withdraw` message: raw body under ink! revert-on-`Err`. -/
def Escrow.withdraw_msg (hash : HashFn) (s : Escrow) (caller token : Nat)
    (amount : Nat) : MsgResult Escrow EscrowError (List RemoteCall) :=
  runMsg s (s.withdraw hash caller token amount)

/-! ## Derived notions and concrete states used by the verification -/

/-- The returned value of an `ok` message, or `d` otherwise. -/
def MsgResult.valD {σ ε α : Type} (d : α) : MsgResult σ ε α → α
  | .ok _ v => v
  | _ => d

/-- The returned error of an `err` message, or `d` otherwise. -/
def MsgResult.errD {σ ε α : Type} (d : ε) : MsgResult σ ε α → ε
  | .err _ e => e
  | _ => d

/-- Total amount the `open_vault` basket loop credits to account `a`: the
sum of the required amounts over the occurrences of `a` in the basket's
token list (walked in parallel with the required-amount list, as the loop
does). -/
def creditOf : List Nat → List Nat → Nat → Nat
  | [], _, _ => 0
  | _ :: _, [], _ => 0
  | t :: ts, r :: rs, a => (if t = a then r else 0) + creditOf ts rs a

/-- Number of registered vaults in a vault registry (vault ids are `u8`,
so the key space is `0..255`). -/
def vaultCountM (m : Mapping Nat Nat) : Nat :=
  ((Finset.range 256).filter (fun k => (m.get k).isSome)).card

/-- Number of registered vaults whose owner is `o`. -/
def ownerCountM (m : Mapping Nat Nat) (o : Nat) : Nat :=
  ((Finset.range 256).filter (fun k => m.get k = some o)).card

/-- Number of currently registered vaults of the pool. -/
def EtfEscrow.vaultCount (s : EtfEscrow) : Nat := vaultCountM s.vaults

/-- Number of currently registered vaults of the pool owned by `o`. -/
def EtfEscrow.ownerCount (s : EtfEscrow) (o : Nat) : Nat := ownerCountM s.vaults o

/-- The collateral-coverage property of claim C6: for each basket entry
(required token, required amount), the pool's recorded balance for that
token is at least the number of currently registered vaults times the
required amount. -/
@[reducible] def EtfEscrow.CoverageInv (s : EtfEscrow) : Prop :=
  ∀ p ∈ s.required_tokens.zip s.required_balances,
    s.vaultCount * p.2 ≤ s.balance_of p.1

/-- The owner-count coherence property of claim C7, strengthened into an
inductive invariant: every registered vault id is below the counter, the
counter never exceeds 256 (it is a `u8` incremented with a trapping
overflow check), and each account's recorded vault count equals the number
of registered vaults it owns. -/
@[reducible] def EtfEscrow.OwnerInv (s : EtfEscrow) : Prop :=
  (∀ k, (s.vaults.get k).isSome → k < s.vaults_quantity) ∧
  s.vaults_quantity ≤ 256 ∧
  ∀ o, s.get_vaults_quantity_per_owner o = s.ownerCount o

/-- States of the pool reachable from the constructor by sequences of
successful `open_vault` / `close_vault` messages (claim C7's operation
set). -/
inductive ReachOC : EtfEscrow → Prop where
  | base (required_tokens : List Nat) (required_balances : List Nat) :
      ReachOC (EtfEscrow.new required_tokens required_balances)
  | step_open (hash : HashFn) (s s' : EtfEscrow) (self_account caller owner : Nat)
      (vault : Nat) (r : Nat × List RemoteCall) (hs : ReachOC s)
      (h : EtfEscrow.open_vault_msg hash s self_account caller owner vault = .ok s' r) :
      ReachOC s'
  | step_close (hash : HashFn) (s s' : EtfEscrow) (self_account caller : Nat)
      (vault : Nat) (r : List RemoteCall) (hs : ReachOC s)
      (h : EtfEscrow.close_vault_msg hash s self_account caller vault = .ok s' r) :
      ReachOC s'

/-- States of the pool reachable from the constructor by sequences of
successful messages of any exposed mutating operation (`open_vault`,
`close_vault`, `transfer`, `transfer_from`; claim C10's operation set). -/
inductive ReachAll : EtfEscrow → Prop where
  | base (required_tokens : List Nat) (required_balances : List Nat) :
      ReachAll (EtfEscrow.new required_tokens required_balances)
  | step_open (hash : HashFn) (s s' : EtfEscrow) (self_account caller owner : Nat)
      (vault : Nat) (r : Nat × List RemoteCall) (hs : ReachAll s)
      (h : EtfEscrow.open_vault_msg hash s self_account caller owner vault = .ok s' r) :
      ReachAll s'
  | step_close (hash : HashFn) (s s' : EtfEscrow) (self_account caller : Nat)
      (vault : Nat) (r : List RemoteCall) (hs : ReachAll s)
      (h : EtfEscrow.close_vault_msg hash s self_account caller vault = .ok s' r) :
      ReachAll s'
  | step_transfer (s s' : EtfEscrow) (caller dest : Nat) (value : Nat)
      (r : Nat) (hs : ReachAll s)
      (h : EtfEscrow.transfer_msg s caller dest value = .ok s' r) : ReachAll s'
  | step_transfer_from (s s' : EtfEscrow) (caller src dest : Nat) (value : Nat)
      (r : Nat) (hs : ReachAll s)
      (h : EtfEscrow.transfer_from_msg s caller src dest value = .ok s' r) : ReachAll s'

/-- Pool state for claim C1's failing input: account 1 holds 100 shares. -/
def c1_state : EtfEscrow :=
  { EtfEscrow.new [] [] with balances := Mapping.empty.insert 1 100 }

/-- Pool state for claim C2's scenario: basket = ([7], [40]), the pool's
recorded balance of token 7 is exactly the required 40, caller 1 holds no
shares. -/
def c2_state : EtfEscrow :=
  { EtfEscrow.new [7] [40] with balances := Mapping.empty.insert 7 40 }

/-- State after caller 1 (pool account 99) opens a vault for owner 2 on
`c2_state` (the assigned vault id is 0). -/
def c2_after_open : EtfEscrow :=
  (c2_state.open_vault_msg hash0 99 1 2 0).stateD c2_state

/-- State after caller 1 then closes the just-created vault 0. -/
def c2_after_close : EtfEscrow :=
  (c2_after_open.close_vault_msg hash0 99 1 0).stateD c2_after_open

/-- Pool state for claim C3's failing input: basket = ([7], [40]) but the
pool's recorded balance of token 7 is 80. -/
def c3_state : EtfEscrow :=
  { EtfEscrow.new [7] [40] with balances := Mapping.empty.insert 7 80 }

/-- Pool state for claim C5's witness: basket = ([7, 8], [40, 50]), token
7 fully funded (40) but token 8 short (10), so `open_vault` passes the
first basket entry, mutates the balance table, and only then hits
`InsufficientNat` at the second entry. -/
def c5_state : EtfEscrow :=
  { EtfEscrow.new [7, 8] [40, 50] with
    balances := (Mapping.empty.insert 7 40).insert 8 10 }

/-- Escrow state for claims C4 and C9: whitelist = [token 10], admin 3. -/
def c9_e0 : Escrow := Escrow.new [10] 3

/-- After `deposit(10, 50)` by caller 5. -/
def c9_e1 : Escrow := (c9_e0.deposit_msg hash0 5 10 50).stateD c9_e0

/-- After `withdraw(10, 30)` by the admin 3. -/
def c9_e2 : Escrow := (c9_e1.withdraw_msg hash0 3 10 30).stateD c9_e1

/-- The second `withdraw(10, 30)` by the admin 3. -/
def c9_r3 : MsgResult Escrow EscrowError (List RemoteCall) :=
  c9_e2.withdraw_msg hash0 3 10 30

/-- The `open_vault` run used by claim C7's witness: one open (empty
basket) on the freshly constructed pool. -/
def c7w_open : MsgResult EtfEscrow ContractError (Nat × List RemoteCall) :=
  (EtfEscrow.new [] []).open_vault_msg hash0 99 1 2 0

/-- Resulting state of `c7w_open`: one vault (id 0) owned by account 2. -/
def c7w_state : EtfEscrow := c7w_open.stateD (EtfEscrow.new [] [])

/-- Resulting value of `c7w_open`. -/
def c7w_val : Nat × List RemoteCall := c7w_open.valD (0, [])

/-- Pool states in which "a vault has been opened": states reached from a
constructor-reachable state by one successful `open_vault`, followed by
any further sequence of successful exposed operations (claim C10's "once
any vault has been opened" scope). -/
inductive ReachAllOpened : EtfEscrow → Prop where
  | opened (hash : HashFn) (s s' : EtfEscrow) (self_account caller owner : Nat)
      (vault : Nat) (r : Nat × List RemoteCall) (hs : ReachAll s)
      (h : EtfEscrow.open_vault_msg hash s self_account caller owner vault = .ok s' r) :
      ReachAllOpened s'
  | step_open (hash : HashFn) (s s' : EtfEscrow) (self_account caller owner : Nat)
      (vault : Nat) (r : Nat × List RemoteCall) (hs : ReachAllOpened s)
      (h : EtfEscrow.open_vault_msg hash s self_account caller owner vault = .ok s' r) :
      ReachAllOpened s'
  | step_close (hash : HashFn) (s s' : EtfEscrow) (self_account caller : Nat)
      (vault : Nat) (r : List RemoteCall) (hs : ReachAllOpened s)
      (h : EtfEscrow.close_vault_msg hash s self_account caller vault = .ok s' r) :
      ReachAllOpened s'
  | step_transfer (s s' : EtfEscrow) (caller dest : Nat) (value : Nat)
      (r : Nat) (hs : ReachAllOpened s)
      (h : EtfEscrow.transfer_msg s caller dest value = .ok s' r) : ReachAllOpened s'
  | step_transfer_from (s s' : EtfEscrow) (caller src dest : Nat) (value : Nat)
      (r : Nat) (hs : ReachAllOpened s)
      (h : EtfEscrow.transfer_from_msg s caller src dest value = .ok s' r) :
      ReachAllOpened s'

/-- The `open_vault` run used by the C6 and C10 witnesses: owner 2, caller
1 opens a vault on the constructed pool with basket ([7], [0]) — the only
kind of basket whose vaults are ever openable from the constructor (the
pool has no funding path for a positive requirement). -/
def c10w_open : MsgResult EtfEscrow ContractError (Nat × List RemoteCall) :=
  (EtfEscrow.new [7] [0]).open_vault_msg hash0 99 1 2 0

/-- Resulting state of `c10w_open`: one vault (id 0, owner 2), caller 1
holds 100 shares, token 7's recorded balance is 0. -/
def c10w_state : EtfEscrow := c10w_open.stateD (EtfEscrow.new [7] [0])

/-- Resulting value of `c10w_open`. -/
def c10w_val : Nat × List RemoteCall := c10w_open.valD (0, [])

/-! ## Theorems -/

/-- C1: the claim says a pool `transfer` whose destination equals the
caller (the self-transfer that `close_vault` uses as its "burn", with
`value ≤ balance`) nets to zero movement.  Evaluating the embedded
`transfer` at the failing input — account 1 holds exactly 100 shares and
self-transfers 100 — shows the transfer succeeds but leaves the balance
at 200, not 100: the credit insert uses the `to_balance` snapshot taken
before the debit insert and overwrites it, so a self-transfer mints
`value` instead of netting to zero. -/
theorem c1_self_transfer_eval :
    (c1_state.transfer_msg 1 1 100).isOk = true ∧
    c1_state.balance_of 1 = 100 ∧
    ((c1_state.transfer_msg 1 1 100).stateD c1_state).balance_of 1 = 200 ∧
    ((c1_state.transfer_msg 1 1 100).stateD c1_state).balance_of 1 ≠
      c1_state.balance_of 1 := by
  decide

/-- C3: the claim says the `i`-th basket iteration of `open_vault` issues
a `transfer_from` moving exactly `required_balances[i]`.  Evaluating the
embedded `open_vault` at the failing input — basket `([7], [40])` with the
pool's recorded balance of token 7 equal to 80 — shows the single issued
call carries value argument 80 (the recorded balance read at the top of
the iteration), not the required 40 that the guard and the local increment
use. -/
theorem c3_open_call_eval :
    (c3_state.open_vault_msg hash0 99 1 2 0).isOk = true ∧
    ((c3_state.open_vault_msg hash0 99 1 2 0).valD (0, [])).2 =
      [⟨7, calculate_selector hash0 "transfer_from", [1, 99, 80]⟩] ∧
    c3_state.required_balances = [40] ∧ (80 : Nat) ≠ 40 := by
  decide

/-- C4: the claim says `deposit(t, a)` issues exactly one outbound call
via the computed `"transfer"` selector whose argument list requests moving
`a` from the caller to the escrow.  Evaluating the embedded `deposit` at
`deposit(10, 50)` by caller 5 shows the single issued call is
`transfer`-selected with pushed arguments `(5, 50)` = `(to, value)` —
i.e. the remote `transfer(to = caller, value)` whose debited account is
the remote call's sender, the escrow itself: the destination argument is
the caller and the escrow appears only as the (debited) sender, the
opposite direction from the claim. -/
theorem c4_deposit_call_eval :
    (c9_e0.deposit_msg hash0 5 10 50).isOk = true ∧
    (c9_e0.deposit_msg hash0 5 10 50).valD [] =
      [⟨10, calculate_selector hash0 "transfer", [5, 50]⟩] := by
  decide

/-- C5: whenever the `open_vault` message returns `InsufficientNat`,
the vault registry, the vault counter, the per-owner vault counts and
every entry of the balance table are exactly as they were before the
call — even when the shortfall is found at the second or later basket
entry, after earlier iterations already wrote to the balance table,
because an ink! message that returns `Err` reverts all of its storage
writes. -/
theorem c5_open_err_unchanged (hash : HashFn) (s : EtfEscrow)
    (self_account caller owner : Nat) (vault : Nat) (s' : EtfEscrow)
    (h : EtfEscrow.open_vault_msg hash s self_account caller owner vault =
      .err s' .insufficientBalance) :
    s'.vaults = s.vaults ∧ s'.vaults_quantity = s.vaults_quantity ∧
    s'.vaults_quantity_per_owner = s.vaults_quantity_per_owner ∧
    s'.balances = s.balances := by
  unfold EtfEscrow.open_vault_msg runMsg at h
  split at h
  · exact absurd h (by simp)
  · rename_i heq
    rw [show s' = s from (MsgResult.err.injEq _ _ _ _).mp h.symm |>.1]
    exact ⟨rfl, rfl, rfl, rfl⟩
  · exact absurd h (by simp)

/-- Witness for C5 at `c5_state`: the shortfall is detected at the second
basket entry (token 8: 10 < 50) after the first entry already passed and
mutated the table, the message returns `InsufficientNat`, and the
observed state is the original one. -/
theorem c5_open_err_unchanged_witness :
    EtfEscrow.open_vault_msg hash0 c5_state 99 1 2 0 =
      .err c5_state .insufficientBalance ∧
    c5_state.vaults = c5_state.vaults ∧
    c5_state.balances = c5_state.balances := by
  have h : EtfEscrow.open_vault_msg hash0 c5_state 99 1 2 0 =
      .err c5_state .insufficientBalance := rfl
  have h2 := c5_open_err_unchanged hash0 c5_state 99 1 2 0 c5_state h
  exact ⟨h, h2.1.symm ▸ rfl, h2.2.2.2.symm ▸ rfl⟩

/-- C8: calling `close_vault` or `get_vault_owner` with a vault id that is
not in the registry does not produce a typed `ContractError`: the `unwrap`
on the missing key aborts the whole invocation (a trap), embedded as
`.trap` for `close_vault` and `none` for `get_vault_owner`. -/
theorem c8_missing_vault_traps (hash : HashFn) (s : EtfEscrow)
    (self_account caller : Nat) (vault : Nat)
    (h : s.vaults.get vault = none) :
    EtfEscrow.close_vault_msg hash s self_account caller vault = .trap ∧
    EtfEscrow.get_vault_owner s vault = none := by
  constructor
  · unfold EtfEscrow.close_vault_msg EtfEscrow.close_vault
    rw [h]
    rfl
  · exact h

/-- Witness for C8: the freshly constructed pool has no vault 0, and both
lookups trap rather than returning a `ContractError`. -/
theorem c8_missing_vault_traps_witness :
    EtfEscrow.close_vault_msg hash0 (EtfEscrow.new [] []) 99 1 0 = .trap ∧
    EtfEscrow.get_vault_owner (EtfEscrow.new [] []) 0 = none :=
  c8_missing_vault_traps hash0 (EtfEscrow.new [] []) 99 1 0 rfl

/-- C9: the escrow scenario of Spec §8.  On whitelist `[10]` with admin 3
and no remote-call traps: `deposit(10, 50)` by caller 5 succeeds and
`get_balance(10)` returns 50; `withdraw(10, 30)` by the admin succeeds and
the balance reads 20; a second `withdraw(10, 30)` by the admin fails with
`InsufficientNat` and the balance still reads 20. -/
theorem c9_escrow_scenario :
    (c9_e0.deposit_msg hash0 5 10 50).isOk = true ∧
    c9_e1.get_balance 10 = 50 ∧
    (c9_e1.withdraw_msg hash0 3 10 30).isOk = true ∧
    c9_e2.get_balance 10 = 20 ∧
    c9_r3.isOk = false ∧
    c9_r3.errD .transferFailed = .insufficientBalance ∧
    (c9_r3.stateD c9_e2).get_balance 10 = 20 := by
  decide

/-- C2, counterexample to the claim as stated: on `c2_state` (basket
`([7], [40])`, token 7 funded with exactly 40, caller 1 holding 0 shares)
`open_vault` succeeds (assigning vault id 0) and the immediate
`close_vault 0` by the same caller succeeds, yet the caller's share
balance is 200 afterwards, not its pre-open value 0: `open_vault` minted
`SHARES = 100` and the close's self-transfer "burn" minted another 100
instead of netting to zero. -/
theorem c2_counterexample :
    (c2_state.open_vault_msg hash0 99 1 2 0).isOk = true ∧
    (c2_after_open.close_vault_msg hash0 99 1 0).isOk = true ∧
    c2_state.balance_of 1 = 0 ∧ c2_after_close.balance_of 1 = 200 ∧
    c2_after_close.balance_of 1 ≠ c2_state.balance_of 1 := by
  decide

/-- Reading an insert: the inserted value at the key, the old store
elsewhere. -/
theorem Mapping.get_insert {K V : Type} [DecidableEq K] (m : Mapping K V)
    (k k' : K) (v : V) :
    (m.insert k v).get k' = if k' = k then some v else m.get k' := rfl

/-- Reading a remove: `none` at the key, the old store elsewhere. -/
theorem Mapping.get_remove {K V : Type} [DecidableEq K] (m : Mapping K V)
    (k k' : K) :
    (m.remove k).get k' = if k' = k then none else m.get k' := rfl

/-- An account not occurring in the basket's token list is credited
nothing by the basket loop. -/
theorem creditOf_eq_zero (a : Nat) :
    ∀ (ts : List Nat) (rs : List Nat), a ∉ ts → creditOf ts rs a = 0 := by
  intro ts
  induction ts with
  | nil => intro rs _; cases rs <;> rfl
  | cons t ts ih =>
    intro rs h
    rw [List.mem_cons, not_or] at h
    cases rs with
    | nil => rfl
    | cons r rs =>
      simp only [creditOf]
      rw [if_neg (fun he => h.1 he.symm), ih rs h.2, Nat.zero_add]

/-- Nat accounting of a successful `open_vault` basket loop: every
account's recorded balance grows by exactly the total credit the basket
assigns to it. -/
theorem open_loop_credit (hash : HashFn) (sa c : Nat) :
    ∀ (ts : List Nat) (rs : List Nat) (b : Mapping Nat Nat)
      (calls : List RemoteCall) (b' : Mapping Nat Nat)
      (calls' : List RemoteCall),
      EtfEscrow.open_vault_loop hash sa c ts rs b calls = .ok b' calls' →
      ∀ a, (b'.get a).getD 0 = (b.get a).getD 0 + creditOf ts rs a := by
  intro ts
  induction ts with
  | nil =>
    intro rs b calls b' calls' h a
    cases rs <;>
      · simp only [EtfEscrow.open_vault_loop, MsgResult.ok.injEq] at h
        rw [← h.1]
        rfl
  | cons t ts ih =>
    intro rs b calls b' calls' h a
    cases rs with
    | nil => exact absurd h (by simp [EtfEscrow.open_vault_loop])
    | cons r rs =>
      simp only [EtfEscrow.open_vault_loop] at h
      split at h
      · exact absurd h (by simp)
      · split at h
        · have hrec := ih rs _ _ _ _ h a
          simp only [Mapping.get_insert] at hrec
          simp only [creditOf]
          by_cases hat : a = t
          · subst hat
            simp at hrec
            simp [hrec]
            omega
          · have hta : t ≠ a := fun he => hat he.symm
            simp [hat] at hrec
            simp [hrec, hta]
        · exact absurd h (by simp)

/-- Nat accounting of a successful `close_vault` redemption loop:
every account had at least its total basket credit recorded (otherwise
the unguarded subtraction would have trapped) and ends with exactly that
credit removed. -/
theorem close_loop_debit (hash : HashFn) (sa c : Nat) :
    ∀ (ts : List Nat) (rs : List Nat) (b : Mapping Nat Nat)
      (calls : List RemoteCall) (b' : Mapping Nat Nat)
      (calls' : List RemoteCall),
      EtfEscrow.close_vault_loop hash sa c ts rs b calls = .ok b' calls' →
      ∀ a, creditOf ts rs a ≤ (b.get a).getD 0 ∧
        (b'.get a).getD 0 = (b.get a).getD 0 - creditOf ts rs a := by
  intro ts
  induction ts with
  | nil =>
    intro rs b calls b' calls' h a
    cases rs <;>
      · simp only [EtfEscrow.close_vault_loop, MsgResult.ok.injEq] at h
        rw [← h.1]
        exact ⟨Nat.zero_le _, rfl⟩
  | cons t ts ih =>
    intro rs b calls b' calls' h a
    cases rs with
    | nil => exact absurd h (by simp [EtfEscrow.close_vault_loop])
    | cons r rs =>
      simp only [EtfEscrow.close_vault_loop] at h
      split at h
      · rename_i hle
        have hrec := ih rs _ _ _ _ h a
        simp only [Mapping.get_insert] at hrec
        simp only [creditOf]
        obtain ⟨hrec1, hrec2⟩ := hrec
        by_cases hat : a = t
        · subst hat
          simp at hrec1 hrec2
          simp
          refine ⟨?_, ?_⟩ <;> omega
        · have hta : t ≠ a := fun he => hat he.symm
          simp [hat] at hrec1 hrec2
          simp [hta]
          refine ⟨?_, ?_⟩ <;> omega
      · exact absurd h (by simp)


/-- Shape of a successful `open_vault` message: the caller-supplied vault
id was unregistered, the `u8` counter increment passed its overflow check,
the basket loop succeeded with some final balance table `b`, and the new
state registers a fresh vault for `owner` under the old counter value,
bumps the counter and the owner's count, and credits the caller with
`SHARES` on top of `b`.  The returned vault id is the old counter value,
not the caller-supplied argument. -/
theorem open_vault_ok_spec (hash : HashFn) (s : EtfEscrow)
    (self_account caller owner : Nat) (vault : Nat) (s' : EtfEscrow)
    (id : Nat) (calls : List RemoteCall)
    (h : EtfEscrow.open_vault_msg hash s self_account caller owner vault =
      .ok s' (id, calls)) :
    s.vaults.contains vault = false ∧ s.vaults_quantity + 1 < 256 ∧
    ∃ b calls₀,
      EtfEscrow.open_vault_loop hash self_account caller s.required_tokens
        s.required_balances s.balances [] = .ok b calls₀ ∧
      s' = { s with
             vaults := s.vaults.insert s.vaults_quantity owner
             vaults_quantity := s.vaults_quantity + 1
             vaults_quantity_per_owner := s.vaults_quantity_per_owner.insert owner
               ((s.vaults_quantity_per_owner.get owner).getD 0 + 1)
             balances := b.insert caller ((b.get caller).getD 0 + SHARES) } ∧
      id = s.vaults_quantity := by
  unfold EtfEscrow.open_vault_msg runMsg at h
  split at h
  all_goals rename_i heq
  rotate_left
  · exact absurd h (by simp)
  · exact absurd h (by simp)
  injection h with hst hval
  subst hst
  subst hval
  unfold EtfEscrow.open_vault at heq
  split at heq
  · exact absurd heq (by simp)
  · rename_i hc
    split at heq
    · exact absurd heq (by simp)
    · exact absurd heq (by simp)
    · rename_i b calls₀ hloop
      dsimp only [] at heq
      split at heq
      · rename_i h256
        split at heq
        · rename_i h2
          split at heq
          · rename_i h3
            injection heq with hst2 hval2
            refine ⟨by simpa using hc, h256, b, calls₀, hloop, hst2.symm, ?_⟩
            have hid : s.vaults_quantity = id := congrArg Prod.fst hval2
            exact hid.symm
          · exact absurd heq (by simp)
        · exact absurd heq (by simp)
      · exact absurd heq (by simp)

/-- Shape of a successful `close_vault` message: the vault was registered
to some `owner`, the caller held at least `SHARES` shares, the self-
transfer committed its two stale-snapshot inserts, the redemption loop
succeeded with final balance table `b`, the registered owner's vault count
was nonzero, and the new state removes the vault and decrements that
owner's count. -/
theorem close_vault_ok_spec (hash : HashFn) (s : EtfEscrow)
    (self_account caller vault : Nat) (s' : EtfEscrow) (calls : List RemoteCall)
    (h : EtfEscrow.close_vault_msg hash s self_account caller vault = .ok s' calls) :
    ∃ owner, s.vaults.get vault = some owner ∧
      SHARES ≤ (s.balances.get caller).getD 0 ∧
      (s.vaults_quantity_per_owner.get owner).getD 0 ≠ 0 ∧
      ∃ b calls₀,
        EtfEscrow.close_vault_loop hash self_account caller s.required_tokens
          s.required_balances
          ((s.balances.insert caller ((s.balances.get caller).getD 0 - SHARES)).insert
            caller ((s.balances.get caller).getD 0 + SHARES)) [] = .ok b calls₀ ∧
        s' = { s with
               vaults := s.vaults.remove vault
               vaults_quantity_per_owner := s.vaults_quantity_per_owner.insert owner
                 ((s.vaults_quantity_per_owner.get owner).getD 0 - 1)
               balances := b } := by
  unfold EtfEscrow.close_vault_msg runMsg at h
  split at h
  all_goals rename_i heq
  rotate_left
  · exact absurd h (by simp)
  · exact absurd h (by simp)
  injection h with hst hval
  subst hst
  subst hval
  unfold EtfEscrow.close_vault at heq
  split at heq
  · exact absurd heq (by simp)
  · rename_i owner hvo
    dsimp only [] at heq
    split at heq
    · exact absurd heq (by simp)
    · rename_i hns
      split at heq
      · exact absurd heq (by simp)
      · rename_i s1 e htr
        -- the internal transfer cannot return Err: its guard is the
        -- shares check that already passed
        exfalso
        unfold EtfEscrow.transfer at htr
        dsimp only [] at htr
        split at htr
        · rename_i hlt
          exact hns (by simpa [EtfEscrow.balance_of] using hlt)
        · split at htr
          · exact absurd htr (by simp)
          · exact absurd htr (by simp)
      · rename_i s1 v1 htr
        unfold EtfEscrow.transfer at htr
        dsimp only [] at htr
        split at htr
        · exact absurd htr (by simp)
        · rename_i hlt
          split at htr
          · rename_i h128
            injection htr with hs1 hv1
            unfold EtfEscrow.close_vault_rest at heq
            rw [← hs1] at heq
            dsimp only [] at heq
            split at heq
            · exact absurd heq (by simp)
            · exact absurd heq (by simp)
            · rename_i b calls₀ hloop
              split at heq
              · exact absurd heq (by simp)
              · rename_i hq0
                injection heq with hst2 hval2
                refine ⟨owner, hvo, by simpa [EtfEscrow.balance_of, Nat.not_lt] using hns,
                  hq0, b, calls₀, ?_, ?_⟩
                · exact hloop
                · rw [← hst2]
          · exact absurd htr (by simp)

/-- Shape of a successful pool `transfer` message: the caller's balance
covered `value` and the new state carries the debit insert followed by the
credit insert computed from the pre-transfer snapshots. -/
theorem transfer_ok_spec (s : EtfEscrow) (caller dest value : Nat)
    (s' : EtfEscrow) (r : Nat)
    (h : EtfEscrow.transfer_msg s caller dest value = .ok s' r) :
    value ≤ (s.balances.get caller).getD 0 ∧
    s' = { s with
           balances := (s.balances.insert caller
             ((s.balances.get caller).getD 0 - value)).insert dest
             ((s.balances.get dest).getD 0 + value) } := by
  unfold EtfEscrow.transfer_msg runMsg at h
  split at h
  all_goals rename_i heq
  rotate_left
  · exact absurd h (by simp)
  · exact absurd h (by simp)
  injection h with hst hval
  subst hst
  unfold EtfEscrow.transfer at heq
  dsimp only [] at heq
  split at heq
  · exact absurd heq (by simp)
  · rename_i hlt
    split at heq
    · injection heq with hst2 hval2
      exact ⟨by simpa [EtfEscrow.balance_of, Nat.not_lt] using hlt, hst2.symm⟩
    · exact absurd heq (by simp)

/-- Shape of a successful pool `transfer_from` message: same as
`transfer` with the debited account being the arbitrary `src` argument
(no allowance check exists). -/
theorem transfer_from_ok_spec (s : EtfEscrow) (caller src dest value : Nat)
    (s' : EtfEscrow) (r : Nat)
    (h : EtfEscrow.transfer_from_msg s caller src dest value = .ok s' r) :
    value ≤ (s.balances.get src).getD 0 ∧
    s' = { s with
           balances := (s.balances.insert src
             ((s.balances.get src).getD 0 - value)).insert dest
             ((s.balances.get dest).getD 0 + value) } := by
  unfold EtfEscrow.transfer_from_msg runMsg at h
  split at h
  all_goals rename_i heq
  rotate_left
  · exact absurd h (by simp)
  · exact absurd h (by simp)
  injection h with hst hval
  subst hst
  unfold EtfEscrow.transfer_from at heq
  dsimp only [] at heq
  split at heq
  · exact absurd heq (by simp)
  · rename_i hlt
    split at heq
    · injection heq with hst2 hval2
      exact ⟨by simpa [EtfEscrow.balance_of, Nat.not_lt] using hlt, hst2.symm⟩
    · exact absurd heq (by simp)

/-- C2 (amended): a successful `open_vault` followed immediately by a
successful `close_vault` of the just-created vault, by the same caller who
is not itself one of the required tokens, restores every required-token
escrow balance in the pool's balance table to its pre-open value; the
caller's pool-share balance, however, ends at its pre-open value plus
`2 * SHARES` = 200 — `SHARES` minted at open plus `SHARES` created by the
close's self-transfer (claim C1's stale-snapshot credit) — not at its
pre-open value as the claim stated. -/
theorem c2_amended_round_trip (hash : HashFn) (s : EtfEscrow)
    (self_account caller owner vault : Nat) (s₁ : EtfEscrow) (id : Nat)
    (cs₁ : List RemoteCall) (s₂ : EtfEscrow) (cs₂ : List RemoteCall)
    (hc : caller ∉ s.required_tokens)
    (h1 : EtfEscrow.open_vault_msg hash s self_account caller owner vault =
      .ok s₁ (id, cs₁))
    (h2 : EtfEscrow.close_vault_msg hash s₁ self_account caller id = .ok s₂ cs₂) :
    (∀ t ∈ s.required_tokens, s₂.balance_of t = s.balance_of t) ∧
    s₂.balance_of caller = s.balance_of caller + 2 * SHARES := by
  obtain ⟨hcv, h256, b, calls₀, hloop, hs1, hid⟩ :=
    open_vault_ok_spec hash s self_account caller owner vault s₁ id cs₁ h1
  have hcredit := open_loop_credit hash self_account caller
    s.required_tokens s.required_balances s.balances [] b calls₀ hloop
  have hbc : (b.get caller).getD 0 = (s.balances.get caller).getD 0 := by
    rw [hcredit caller, creditOf_eq_zero caller _ _ hc]
    omega
  obtain ⟨owner', hvo, hsh, hq0, b₂, calls₀', hloop₂, hs2⟩ :=
    close_vault_ok_spec hash s₁ self_account caller id s₂ cs₂ h2
  subst hs1
  dsimp only [] at hloop₂ hsh
  rw [Mapping.get_insert, if_pos rfl] at hloop₂ hsh
  simp only [Option.getD_some] at hloop₂ hsh
  have hdebit := close_loop_debit hash self_account caller
    s.required_tokens s.required_balances _ [] b₂ calls₀' hloop₂
  have hm2 : ∀ a, ((((b.insert caller ((b.get caller).getD 0 + SHARES)).insert caller
      ((b.get caller).getD 0 + SHARES - SHARES)).insert caller
      ((b.get caller).getD 0 + SHARES + SHARES)).get a).getD 0 =
      if a = caller then (b.get caller).getD 0 + SHARES + SHARES
      else (b.get a).getD 0 := by
    intro a
    simp only [Mapping.get_insert]
    by_cases hac : a = caller
    · simp [hac]
    · simp [hac]
  constructor
  · intro t ht
    have htc : t ≠ caller := fun he => hc (he ▸ ht)
    have hd := hdebit t
    rw [hm2 t, if_neg htc] at hd
    rw [hs2]
    simp only [EtfEscrow.balance_of]
    rw [hd.2, hcredit t]
    omega
  · have hd := hdebit caller
    rw [hm2 caller, if_pos rfl] at hd
    have hz : creditOf s.required_tokens s.required_balances caller = 0 :=
      creditOf_eq_zero caller _ _ hc
    rw [hs2]
    simp only [EtfEscrow.balance_of]
    rw [hd.2, hz, hbc]
    omega

/-- Inserting a fresh `u8` id for owner `o` increments `o`'s owned
count. -/
theorem ocm_insert_fresh_same (m : Mapping Nat Nat) (k o : Nat)
    (h : m.get k = none) (hk : k < 256) :
    ownerCountM (m.insert k o) o = ownerCountM m o + 1 := by
  unfold ownerCountM
  have hset : (Finset.range 256).filter (fun x => (m.insert k o).get x = some o) =
      insert k ((Finset.range 256).filter (fun x => m.get x = some o)) := by
    ext x
    simp only [Finset.mem_filter, Finset.mem_insert, Finset.mem_range, Mapping.get_insert]
    by_cases hxk : x = k
    · simp [hxk, hk]
    · simp [hxk]
  rw [hset, Finset.card_insert_of_not_mem]
  simp [Finset.mem_filter, h]

/-- Inserting a fresh id for owner `o` leaves other owners' counts
unchanged. -/
theorem ocm_insert_fresh_other (m : Mapping Nat Nat) (k o o' : Nat)
    (h : m.get k = none) (ho : o' ≠ o) :
    ownerCountM (m.insert k o) o' = ownerCountM m o' := by
  unfold ownerCountM
  congr 1
  apply Finset.filter_congr
  intro x _
  simp only [Mapping.get_insert]
  by_cases hxk : x = k
  · simp [hxk, h, Option.some.injEq, Ne.symm ho]
  · simp [hxk]

/-- Removing a registered `u8` id owned by `o` decrements `o`'s owned
count. -/
theorem ocm_remove_same (m : Mapping Nat Nat) (k o : Nat)
    (h : m.get k = some o) (hk : k < 256) :
    ownerCountM (m.remove k) o = ownerCountM m o - 1 := by
  unfold ownerCountM
  have hset : (Finset.range 256).filter (fun x => (m.remove k).get x = some o) =
      ((Finset.range 256).filter (fun x => m.get x = some o)).erase k := by
    ext x
    simp only [Finset.mem_filter, Finset.mem_erase, Finset.mem_range, Mapping.get_remove]
    by_cases hxk : x = k
    · simp [hxk]
    · simp [hxk]
  rw [hset, Finset.card_erase_of_mem]
  simp [Finset.mem_filter, Finset.mem_range, hk, h]

/-- Removing an id owned by `o` leaves other owners' counts unchanged. -/
theorem ocm_remove_other (m : Mapping Nat Nat) (k o o' : Nat)
    (h : m.get k = some o) (ho : o' ≠ o) :
    ownerCountM (m.remove k) o' = ownerCountM m o' := by
  unfold ownerCountM
  congr 1
  apply Finset.filter_congr
  intro x _
  simp only [Mapping.get_remove]
  by_cases hxk : x = k
  · simp [hxk, h, Option.some.injEq, Ne.symm ho]
  · simp [hxk]

/-- The owner-count invariant holds in every state reachable by
successful `open_vault` / `close_vault` messages: registered ids stay
below the counter, the counter stays within `u8` range, and per-owner
counts match the registry. -/
theorem reachOC_ownerInv (s : EtfEscrow) (h : ReachOC s) : s.OwnerInv := by
  induction h with
  | base ts rs =>
    refine ⟨?_, by simp [EtfEscrow.new], ?_⟩
    · intro k hk
      simp [EtfEscrow.new, Mapping.empty] at hk
    · intro o
      simp [EtfEscrow.new, EtfEscrow.get_vaults_quantity_per_owner,
        EtfEscrow.ownerCount, ownerCountM, Mapping.empty]
  | step_open hash s s' sa caller owner vault r hs h ih =>
    obtain ⟨id, cs⟩ := r
    obtain ⟨hcv, h256, b, calls₀, hloop, hs', hid⟩ :=
      open_vault_ok_spec hash s sa caller owner vault s' id cs h
    subst hs'
    obtain ⟨ihk, ihq, ihc⟩ := ih
    have hfresh : s.vaults.get s.vaults_quantity = none := by
      cases hv : s.vaults.get s.vaults_quantity with
      | none => rfl
      | some o => exact absurd (ihk _ (by simp [hv])) (lt_irrefl _)
    have hvq : s.vaults_quantity < 256 := by omega
    refine ⟨?_, by dsimp only []; omega, ?_⟩
    · intro k hk
      dsimp only [] at hk ⊢
      rw [Mapping.get_insert] at hk
      by_cases hkv : k = s.vaults_quantity
      · omega
      · rw [if_neg hkv] at hk
        have := ihk k hk
        omega
    · intro o
      dsimp only [EtfEscrow.get_vaults_quantity_per_owner, EtfEscrow.ownerCount]
      rw [Mapping.get_insert]
      by_cases ho : o = owner
      · subst ho
        rw [if_pos rfl]
        simp only [Option.getD_some]
        rw [ocm_insert_fresh_same _ _ _ hfresh hvq]
        have := ihc o
        simp only [EtfEscrow.get_vaults_quantity_per_owner, EtfEscrow.ownerCount] at this
        omega
      · rw [if_neg ho]
        rw [ocm_insert_fresh_other _ _ _ _ hfresh ho]
        exact ihc o
  | step_close hash s s' sa caller vault r hs h ih =>
    obtain ⟨owner', hvo, hsh, hq0, b₂, calls₀', hloop₂, hs2⟩ :=
      close_vault_ok_spec hash s sa caller vault s' r h
    subst hs2
    obtain ⟨ihk, ihq, ihc⟩ := ih
    have hv256 : vault < 256 :=
      lt_of_lt_of_le (ihk vault (by simp [hvo])) ihq
    refine ⟨?_, by dsimp only []; exact ihq, ?_⟩
    · intro k hk
      dsimp only [] at hk ⊢
      rw [Mapping.get_remove] at hk
      by_cases hkv : k = vault
      · rw [if_pos hkv] at hk
        simp at hk
      · rw [if_neg hkv] at hk
        exact ihk k hk
    · intro o
      dsimp only [EtfEscrow.get_vaults_quantity_per_owner, EtfEscrow.ownerCount]
      rw [Mapping.get_insert]
      by_cases ho : o = owner'
      · subst ho
        rw [if_pos rfl]
        simp only [Option.getD_some]
        rw [ocm_remove_same _ _ _ hvo hv256]
        have := ihc o
        simp only [EtfEscrow.get_vaults_quantity_per_owner, EtfEscrow.ownerCount] at this
        omega
      · rw [if_neg ho]
        rw [ocm_remove_other _ _ _ _ hvo ho]
        exact ihc o

/-- No exposed mutating operation ever writes the `total_supply` field,
so it stays at its constructed value 0 in every reachable state. -/
theorem reachAll_total_supply (s : EtfEscrow) (h : ReachAll s) :
    s.total_supply = 0 := by
  induction h with
  | base ts rs => rfl
  | step_open hash s s' sa caller owner vault r hs h ih =>
    obtain ⟨id, cs⟩ := r
    obtain ⟨_, _, b, c₀, _, hs', _⟩ :=
      open_vault_ok_spec hash s sa caller owner vault s' id cs h
    subst hs'
    exact ih
  | step_close hash s s' sa caller vault r hs h ih =>
    obtain ⟨owner', _, _, _, b₂, c₀, _, hs2⟩ :=
      close_vault_ok_spec hash s sa caller vault s' r h
    subst hs2
    exact ih
  | step_transfer s s' caller dest value r hs h ih =>
    obtain ⟨_, hs'⟩ := transfer_ok_spec s caller dest value s' r h
    subst hs'
    exact ih
  | step_transfer_from s s' caller src dest value r hs h ih =>
    obtain ⟨_, hs'⟩ := transfer_from_ok_spec s caller src dest value s' r h
    subst hs'
    exact ih

/-- Witness for C2 (amended) on `c2_state`: the open/close round trip
succeeds, token 7's escrow balance is restored (40), and caller 1's share
balance ends at 0 + 2·SHARES = 200. -/
theorem c2_amended_round_trip_witness :
    c2_after_close.balance_of 7 = c2_state.balance_of 7 ∧
    c2_after_close.balance_of 1 = c2_state.balance_of 1 + 2 * SHARES := by
  have H := c2_amended_round_trip hash0 c2_state 99 1 2 0 c2_after_open
    ((c2_state.open_vault_msg hash0 99 1 2 0).valD (0, [])).1
    ((c2_state.open_vault_msg hash0 99 1 2 0).valD (0, [])).2
    c2_after_close
    ((c2_after_open.close_vault_msg hash0 99 1 0).valD [])
    (by decide) rfl rfl
  exact ⟨H.1 7 (by decide), H.2⟩

/-- C7: in every pool state reachable from the constructor by sequences
of successful `open_vault` / `close_vault` operations, each account's
recorded vault count (`VaultsPerOwner`) equals the number of vault ids
currently present in the registry whose registered owner is that account.
In particular the registered owner's count is nonzero whenever one of its
vaults is closed, so the `u8` decrement never underflows. -/
theorem c7_owner_count (s : EtfEscrow) (h : ReachOC s) (o : Nat) :
    s.get_vaults_quantity_per_owner o = s.ownerCount o :=
  (reachOC_ownerInv s h).2.2 o

/-- Witness for C7 after one concrete open on the fresh pool: owner 2's
recorded count and its registry count agree (both are 1). -/
theorem c7_owner_count_witness :
    c7w_state.get_vaults_quantity_per_owner 2 = c7w_state.ownerCount 2 :=
  c7_owner_count c7w_state
    (ReachOC.step_open hash0 (EtfEscrow.new [] []) c7w_state 99 1 2 0 c7w_val
      (ReachOC.base [] []) rfl) 2


/-- From a balance table reading 0 everywhere, the `open_vault` basket
loop can only succeed if every walked required amount is 0: each iteration
checks the token's recorded balance (0) against the required amount, and
the inserts along the way keep every entry at 0. -/
theorem open_loop_zero (hash : HashFn) (sa c : Nat) :
    ∀ (ts : List Nat) (rs : List Nat) (b : Mapping Nat Nat)
      (calls : List RemoteCall) (b' : Mapping Nat Nat) (calls' : List RemoteCall),
      EtfEscrow.open_vault_loop hash sa c ts rs b calls = .ok b' calls' →
      (∀ a, (b.get a).getD 0 = 0) →
      ∀ p ∈ ts.zip rs, p.2 = 0 := by
  intro ts
  induction ts with
  | nil => intro rs b calls b' calls' _ _ p hp; simp at hp
  | cons t ts ih =>
    intro rs b calls b' calls' h hz p hp
    cases rs with
    | nil => simp at hp
    | cons r rs =>
      simp only [EtfEscrow.open_vault_loop] at h
      split at h
      · exact absurd h (by simp)
      · rename_i hge
        have hr0 : r = 0 := by have := hz t; omega
        split at h
        · rw [List.zip_cons_cons, List.mem_cons] at hp
          rcases hp with hp | hp
          · rw [hp]
            exact hr0
          · refine ih rs _ _ _ _ h ?_ p hp
            intro a
            rw [Mapping.get_insert]
            by_cases hat : a = t
            · simp [hat, hz t, hr0]
            · simp [hat, hz a]
        · exact absurd h (by simp)

/-- An all-zero required-amount basket credits 0 to every account. -/
theorem creditOf_eq_zero_of_reqs (ts : List Nat) :
    ∀ (rs : List Nat), (∀ p ∈ ts.zip rs, p.2 = 0) →
      ∀ a, creditOf ts rs a = 0 := by
  induction ts with
  | nil => intro rs _ a; cases rs <;> rfl
  | cons t ts ih =>
    intro rs hz a
    cases rs with
    | nil => rfl
    | cons r rs =>
      have hr0 : r = 0 := hz (t, r) (by rw [List.zip_cons_cons]; exact List.mem_cons_self _ _)
      have htail : ∀ p ∈ ts.zip rs, p.2 = 0 := by
        intro p hp
        exact hz p (by rw [List.zip_cons_cons]; exact List.mem_cons_of_mem _ hp)
      simp only [creditOf, hr0, ih rs htail a]
      simp

/-- An empty registry has no registered vaults. -/
theorem vcm_eq_zero (m : Mapping Nat Nat) (h : ∀ k, m.get k = none) :
    vaultCountM m = 0 := by
  unfold vaultCountM
  rw [Finset.card_eq_zero]
  rw [Finset.filter_eq_empty_iff]
  intro x _
  simp [h x]

/-- The key structural fact about constructor-reachable pool states:
either every basket entry's required amount is 0 (so the coverage bound is
trivial), or the balance table still reads 0 everywhere and the registry
is empty.  The pool has no funding path: balances start empty, `transfer`
/ `transfer_from` from all-zero balances can only move 0, a positive
requirement therefore makes the basket check fail so `open_vault` never
succeeds (and never mints), and `close_vault` traps on the empty
registry. -/
theorem reachAll_coverage_aux (s : EtfEscrow) (h : ReachAll s) :
    (∀ p ∈ s.required_tokens.zip s.required_balances, p.2 = 0) ∨
    ((∀ a, (s.balances.get a).getD 0 = 0) ∧ ∀ k, s.vaults.get k = none) := by
  induction h with
  | base ts rs => exact Or.inr ⟨fun a => rfl, fun k => rfl⟩
  | step_open hash s s' sa caller owner vault r hs h ih =>
    obtain ⟨id, cs⟩ := r
    obtain ⟨hcv, h256, b, calls₀, hloop, hs', hid⟩ :=
      open_vault_ok_spec hash s sa caller owner vault s' id cs h
    subst hs'
    rcases ih with h1 | ⟨hz, hreg⟩
    · exact Or.inl h1
    · exact Or.inl (open_loop_zero hash sa caller _ _ _ _ _ _ hloop hz)
  | step_close hash s s' sa caller vault r hs h ih =>
    obtain ⟨owner', hvo, hsh, hq0, b₂, calls₀', hloop₂, hs2⟩ :=
      close_vault_ok_spec hash s sa caller vault s' r h
    subst hs2
    rcases ih with h1 | ⟨hz, hreg⟩
    · exact Or.inl h1
    · exact absurd hvo (by simp [hreg vault])
  | step_transfer s s' caller dest value r hs h ih =>
    obtain ⟨hval, hs'⟩ := transfer_ok_spec s caller dest value s' r h
    subst hs'
    rcases ih with h1 | ⟨hz, hreg⟩
    · exact Or.inl h1
    · refine Or.inr ⟨?_, fun k => hreg k⟩
      intro a
      have hv0 : value = 0 := by have := hz caller; omega
      simp only [Mapping.get_insert]
      by_cases had : a = dest
      · simp [had, hv0, hz dest]
      · by_cases hac : a = caller
        · simp [had, hac, hv0, hz caller, hz dest]
        · simp [had, hac, hz a]
  | step_transfer_from s s' caller src dest value r hs h ih =>
    obtain ⟨hval, hs'⟩ := transfer_from_ok_spec s caller src dest value s' r h
    subst hs'
    rcases ih with h1 | ⟨hz, hreg⟩
    · exact Or.inl h1
    · refine Or.inr ⟨?_, fun k => hreg k⟩
      intro a
      have hv0 : value = 0 := by have := hz src; omega
      simp only [Mapping.get_insert]
      by_cases had : a = dest
      · simp [had, hv0, hz dest]
      · by_cases hac : a = src
        · simp [had, hac, hv0, hz src, hz dest]
        · simp [had, hac, hz a]

/-- C6: in every state of the pool reachable from the constructor by any
sequence of successful exposed operations (`open_vault`, `close_vault`,
`transfer`, `transfer_from`), each required token's balance-table entry is
at least the number of currently registered vaults times that token's
required amount.  The claim holds, but degenerately: reachable states
either carry an all-zero-requirement basket (bound 0) or are still
unfunded with an empty registry (count 0) — the constructed pool has no
operation that can fund a positive requirement. -/
theorem c6_coverage_reachable (s : EtfEscrow) (h : ReachAll s) :
    s.CoverageInv := by
  rcases reachAll_coverage_aux s h with h1 | ⟨hz, hreg⟩
  · intro p hp
    rw [h1 p hp]
    simp
  · intro p hp
    have hc0 : s.vaultCount = 0 := vcm_eq_zero s.vaults hreg
    unfold EtfEscrow.vaultCount at hc0
    simp only [EtfEscrow.vaultCount, hc0]
    simp

/-- A state in which a vault has been opened is in particular
constructor-reachable. -/
theorem reachAllOpened_reachAll (s : EtfEscrow) (h : ReachAllOpened s) :
    ReachAll s := by
  induction h with
  | opened hash s s' sa caller owner vault r hs h =>
    exact ReachAll.step_open hash s s' sa caller owner vault r hs h
  | step_open hash s s' sa caller owner vault r hs h ih =>
    exact ReachAll.step_open hash s s' sa caller owner vault r ih h
  | step_close hash s s' sa caller vault r hs h ih =>
    exact ReachAll.step_close hash s s' sa caller vault r ih h
  | step_transfer s s' caller dest value r hs h ih =>
    exact ReachAll.step_transfer s s' caller dest value r ih h
  | step_transfer_from s s' caller src dest value r hs h ih =>
    exact ReachAll.step_transfer_from s s' caller src dest value r ih h

/-- A pool transfer's effect on a finite sum of balances: debiting `v`
(covered by the source's balance) at `src` and crediting `v` at `dest`,
with the credit computed from the pre-transfer snapshot, never decreases
the sum over a set containing both accounts (for `src = dest` the credit
overwrites the debit and the sum grows by `v`). -/
theorem sum_update_transfer (B : Finset Nat) (f : Nat → Nat) (src dest v : Nat)
    (hsrc : src ∈ B) (hd : dest ∈ B) (hv : v ≤ f src) :
    ∑ a in B, f a ≤
      ∑ a in B, (if a = dest then f dest + v else if a = src then f src - v else f a) := by
  by_cases hsd : src = dest
  · subst hsd
    apply Finset.sum_le_sum
    intro i _
    by_cases hi : i = src
    · simp [hi]
    · simp [hi]
  · have hsrc' : src ∈ B.erase dest := Finset.mem_erase.mpr ⟨hsd, hsrc⟩
    have hL : ∑ a in B, (if a = dest then f dest + v else if a = src then f src - v else f a) =
        (f dest + v) + ((f src - v) + ∑ a in (B.erase dest).erase src, f a) := by
      rw [← Finset.add_sum_erase B _ hd]
      simp only [if_pos rfl]
      congr 1
      rw [← Finset.add_sum_erase (B.erase dest) _ hsrc']
      rw [if_neg hsd, if_pos rfl]
      congr 1
      apply Finset.sum_congr rfl
      intro x hx
      rw [Finset.mem_erase] at hx
      obtain ⟨hxs, hx2⟩ := hx
      rw [Finset.mem_erase] at hx2
      rw [if_neg hx2.1, if_neg hxs]
    have hR : ∑ a in B, f a = f dest + (f src + ∑ a in (B.erase dest).erase src, f a) := by
      rw [← Finset.add_sum_erase B f hd]
      congr 1
      rw [← Finset.add_sum_erase (B.erase dest) f hsrc']
    rw [hL, hR]
    omega

/-- Once a vault has been opened, some finite set of accounts holds at
least `SHARES` = 100 in the balance table, in every later reachable
state: the open mints `SHARES` to its caller, further opens and closes
only increase entries (closes subtract the basket credits, which are 0 in
any state where an open ever succeeded), and transfers never decrease the
total over a set containing both endpoints. -/
theorem reachAllOpened_sum (s : EtfEscrow) (h : ReachAllOpened s) :
    ∃ B : Finset Nat, SHARES ≤ ∑ a in B, s.balance_of a := by
  induction h with
  | opened hash s s' sa caller owner vault r hs h =>
    obtain ⟨id, cs⟩ := r
    obtain ⟨hcv, h256, b, calls₀, hloop, hs', hid⟩ :=
      open_vault_ok_spec hash s sa caller owner vault s' id cs h
    subst hs'
    refine ⟨{caller}, ?_⟩
    rw [Finset.sum_singleton]
    have hS : SHARES = 100 := rfl
    simp [EtfEscrow.balance_of, Mapping.get_insert, hS]
  | step_open hash s s' sa caller owner vault r hs h ih =>
    obtain ⟨B, hB⟩ := ih
    obtain ⟨id, cs⟩ := r
    obtain ⟨hcv, h256, b, calls₀, hloop, hs', hid⟩ :=
      open_vault_ok_spec hash s sa caller owner vault s' id cs h
    subst hs'
    refine ⟨B, le_trans hB (Finset.sum_le_sum ?_)⟩
    intro a _
    have hcr := open_loop_credit hash sa caller
      s.required_tokens s.required_balances s.balances [] b calls₀ hloop
    by_cases hac : a = caller
    · have := hcr a
      simp [hac] at this
      simp [EtfEscrow.balance_of, Mapping.get_insert, hac]
      omega
    · have := hcr a
      simp [EtfEscrow.balance_of, Mapping.get_insert, hac]
      omega
  | step_close hash s s' sa caller vault r hs h ih =>
    obtain ⟨B, hB⟩ := ih
    obtain ⟨owner', hvo, hsh, hq0, b₂, calls₀', hloop₂, hs2⟩ :=
      close_vault_ok_spec hash s sa caller vault s' r h
    subst hs2
    have hra : ReachAll s := reachAllOpened_reachAll s hs
    have hzero : ∀ p ∈ s.required_tokens.zip s.required_balances, p.2 = 0 := by
      rcases reachAll_coverage_aux s hra with h1 | ⟨hz, hreg⟩
      · exact h1
      · exact absurd hvo (by simp [hreg vault])
    have hcz : ∀ a, creditOf s.required_tokens s.required_balances a = 0 :=
      creditOf_eq_zero_of_reqs _ _ hzero
    have hdeb := close_loop_debit hash sa caller
      s.required_tokens s.required_balances _ [] b₂ calls₀' hloop₂
    refine ⟨B, le_trans hB (Finset.sum_le_sum ?_)⟩
    intro a _
    have hd := (hdeb a).2
    rw [hcz a, Nat.sub_zero] at hd
    by_cases hac : a = caller
    · subst hac
      simp [EtfEscrow.balance_of, Mapping.get_insert] at hd ⊢
      omega
    · simp [EtfEscrow.balance_of, Mapping.get_insert, hac] at hd ⊢
      omega
  | step_transfer s s' caller dest value r hs h ih =>
    obtain ⟨B, hB⟩ := ih
    obtain ⟨hval, hs'⟩ := transfer_ok_spec s caller dest value s' r h
    subst hs'
    refine ⟨insert dest (insert caller B), ?_⟩
    have hsub : B ⊆ insert dest (insert caller B) := by
      intro x hx
      exact Finset.mem_insert_of_mem (Finset.mem_insert_of_mem hx)
    have hB' : SHARES ≤ ∑ a in insert dest (insert caller B), s.balance_of a :=
      le_trans hB (Finset.sum_le_sum_of_subset hsub)
    have hpt : ∀ a, (((s.balances.insert caller ((s.balances.get caller).getD 0 - value)).insert
        dest ((s.balances.get dest).getD 0 + value)).get a).getD 0 =
        if a = dest then s.balance_of dest + value
        else if a = caller then s.balance_of caller - value else s.balance_of a := by
      intro a
      simp only [EtfEscrow.balance_of, Mapping.get_insert]
      by_cases had : a = dest
      · simp [had]
      · by_cases hac : a = caller
        · subst hac
          simp [had]
        · simp [had, hac]
    simp only [EtfEscrow.balance_of]
    calc SHARES ≤ ∑ a in insert dest (insert caller B), s.balance_of a := hB'
      _ ≤ ∑ a in insert dest (insert caller B),
            (if a = dest then s.balance_of dest + value
             else if a = caller then s.balance_of caller - value
             else s.balance_of a) :=
        sum_update_transfer _ _ caller dest value
          (Finset.mem_insert_of_mem (Finset.mem_insert_self _ _))
          (Finset.mem_insert_self _ _) hval
      _ = _ := Finset.sum_congr rfl (fun a _ => (hpt a).symm)
  | step_transfer_from s s' caller src dest value r hs h ih =>
    obtain ⟨B, hB⟩ := ih
    obtain ⟨hval, hs'⟩ := transfer_from_ok_spec s caller src dest value s' r h
    subst hs'
    refine ⟨insert dest (insert src B), ?_⟩
    have hsub : B ⊆ insert dest (insert src B) := by
      intro x hx
      exact Finset.mem_insert_of_mem (Finset.mem_insert_of_mem hx)
    have hB' : SHARES ≤ ∑ a in insert dest (insert src B), s.balance_of a :=
      le_trans hB (Finset.sum_le_sum_of_subset hsub)
    have hpt : ∀ a, (((s.balances.insert src ((s.balances.get src).getD 0 - value)).insert
        dest ((s.balances.get dest).getD 0 + value)).get a).getD 0 =
        if a = dest then s.balance_of dest + value
        else if a = src then s.balance_of src - value else s.balance_of a := by
      intro a
      simp only [EtfEscrow.balance_of, Mapping.get_insert]
      by_cases had : a = dest
      · simp [had]
      · by_cases hac : a = src
        · subst hac
          simp [had]
        · simp [had, hac]
    simp only [EtfEscrow.balance_of]
    calc SHARES ≤ ∑ a in insert dest (insert src B), s.balance_of a := hB'
      _ ≤ ∑ a in insert dest (insert src B),
            (if a = dest then s.balance_of dest + value
             else if a = src then s.balance_of src - value
             else s.balance_of a) :=
        sum_update_transfer _ _ src dest value
          (Finset.mem_insert_of_mem (Finset.mem_insert_self _ _))
          (Finset.mem_insert_self _ _) hval
      _ = _ := Finset.sum_congr rfl (fun a _ => (hpt a).symm)

/-- C10: the pool's `total_supply` field is 0 in every state reachable
from the constructor by successful exposed operations; and in every
reachable state from the moment any vault has been opened onward, it
never equals the sum of outstanding pool-share balances: for any finite
account set covering all nonzero entries, the sum is at least `SHARES` =
100 while the supply is still 0. -/
theorem c10_total_supply (s s₂ : EtfEscrow) (h : ReachAll s)
    (h₂ : ReachAllOpened s₂) :
    s.total_supply = 0 ∧ s₂.total_supply = 0 ∧
    ∀ A : Finset Nat, (∀ a, a ∉ A → s₂.balance_of a = 0) →
      s₂.total_supply ≠ ∑ a in A, s₂.balance_of a := by
  have h0 := reachAll_total_supply s h
  have h02 := reachAll_total_supply s₂ (reachAllOpened_reachAll s₂ h₂)
  refine ⟨h0, h02, ?_⟩
  intro A hcov hEq
  obtain ⟨B, hB⟩ := reachAllOpened_sum s₂ h₂
  have hAB : ∑ a in A ∪ B, s₂.balance_of a = ∑ a in A, s₂.balance_of a :=
    (Finset.sum_subset Finset.subset_union_left
      (fun x _ hx => hcov x hx)).symm
  have hBle : ∑ a in B, s₂.balance_of a ≤ ∑ a in A ∪ B, s₂.balance_of a :=
    Finset.sum_le_sum_of_subset Finset.subset_union_right
  have hS : SHARES = 100 := rfl
  rw [h02] at hEq
  omega

/-- Witness for C6 on a concretely reached state: after the one kind of
open the constructor admits (zero-requirement basket), the coverage bound
holds at the basket entry (token 7, required 0). -/
theorem c6_coverage_reachable_witness :
    c10w_state.vaultCount * 0 ≤ c10w_state.balance_of 7 :=
  c6_coverage_reachable c10w_state
    (ReachAll.step_open hash0 (EtfEscrow.new [7] [0]) c10w_state 99 1 2 0 c10w_val
      (ReachAll.base [7] [0]) rfl) (7, 0) (by decide)

/-- Witness for C10: the fresh pool has supply 0, and `c10w_state` — a
state with an opened vault — has supply 0 differing from the share sum
over the covering set {caller 1} (which is 100). -/
theorem c10_total_supply_witness :
    (EtfEscrow.new [7] [40]).total_supply = 0 ∧ c10w_state.total_supply = 0 ∧
    c10w_state.total_supply ≠ ∑ a in ({1} : Finset Nat), c10w_state.balance_of a := by
  have hcov : ∀ a : Nat, a ∉ ({1} : Finset Nat) → c10w_state.balance_of a = 0 := by
    intro a ha
    rw [Finset.mem_singleton] at ha
    change (if a = 1 then some (100 : Nat) else if a = 7 then some 0 else none).getD 0 = 0
    rw [if_neg ha]
    by_cases h7 : a = 7
    · rw [if_pos h7]
      rfl
    · rw [if_neg h7]
      rfl
  have H := c10_total_supply (EtfEscrow.new [7] [40]) c10w_state
    (ReachAll.base [7] [40])
    (ReachAllOpened.opened hash0 (EtfEscrow.new [7] [0]) c10w_state 99 1 2 0 c10w_val
      (ReachAll.base [7] [0]) rfl)
  exact ⟨H.1, H.2.1, H.2.2 {1} hcov⟩
